import Mathlib

/-!
Shallow embedding of `src/bsdiff_patch.c` (the BSDIFF40 patch applier).

Modelling conventions:
* Byte sequences (file contents, decompressed substreams) are `List Nat`
  whose entries are bytes (`< 256`).
* C `int` is 32-bit; an addition of two `int`s is modelled exactly where the
  result provably fits, and through `wrap32` (twos-complement wraparound,
  the behaviour of the usual target compilers) where it can exceed the
  `int` range.  This applies to the cursor/bound arithmetic of the
  reconstruction loop (`newPos + ctrl[0]`, `oldPos + ctrl[2]`, ...).
* `BZ2_bzRead(b, buf, n)` over an open decompressor whose remaining
  decompressed bytes are the list `s` is modelled as: it stores
  `min n s.length` bytes into the destination and succeeds iff it stored
  exactly `n` (a short read or decompression error makes the code fail).
  A reader whose `BZ2_bzReadOpen` returned NULL fails every read and
  stores nothing (bzlib returns `BZ_PARAM_ERROR` for a NULL handle).
* File-system and allocator outcomes (`fopen`, `fseek`, `malloc`,
  `fwrite`) are oracle booleans in a `World` structure; the decompressed
  contents of the three substreams and of the old file are `World` fields.
* Writes into `newFileBuf` are bounds-tracked: a write whose index falls
  outside the allocated `[0, newFileSize)` range sets an `oob` flag
  (in C it would be an out-of-range store into the heap).
-/

/-- Twos-complement wraparound of a 32-bit signed `int`:
maps any integer into `[-2^31, 2^31)` preserving its value mod `2^32`. -/
def wrap32 (x : Int) : Int := (x + 2 ^ 31) % 2 ^ 32 - 2 ^ 31

/-- `readOffset` (bsdiff_patch.c lines 300-315): decodes an 8-byte
little-endian field.  Returns `-1` (invalid) when any of bytes 4..7 is
non-zero or the 32-bit magnitude exceeds `0x7fffffff`; otherwise the
magnitude.  The C accumulation `((b3*256+b2)*256+b1)*256+b0` is exact for
byte inputs (it fits in `unsigned int`). -/
def readOffset (buf : List Nat) : Int :=
  if buf.getD 7 0 ≠ 0 ∨ buf.getD 6 0 ≠ 0 ∨ buf.getD 5 0 ≠ 0 ∨ buf.getD 4 0 ≠ 0 then
    -1
  else
    let off : Nat := ((buf.getD 3 0 * 256 + buf.getD 2 0) * 256 + buf.getD 1 0) * 256
      + buf.getD 0 0
    if off > 0x7fffffff then -1 else (off : Int)

/-- The byte values of the magic literal "BSDIFF40". -/
def magicBytes : List Nat := [66, 83, 68, 73, 70, 70, 52, 48]

/-- `readHeader` (lines 261-283): needs 32 bytes, the magic, and three
non-negative decoded fields `(controlBlockSize, diffBlockSize,
newFileSize)`. -/
def readHeader (patch : List Nat) : Option (Int × Int × Int) :=
  if patch.length < 32 then none
  else if patch.take 8 ≠ magicBytes then none
  else
    let c := readOffset ((patch.drop 8).take 8)
    let d := readOffset ((patch.drop 16).take 8)
    let n := readOffset ((patch.drop 24).take 8)
    if c < 0 ∨ d < 0 ∨ n < 0 then none else some (c, d, n)

/-- The distinct strings passed to `writeError` by `bsdiff_patch`. -/
inductive ErrMsg where
  | cantOpenPatchFile
  | invalidPatchFile
  | cantOpenOldFile
  | outOfMemory
  | failedToReadOldFile
  | cantOpenNewFile
  | failedToWriteNewFile
  | outOfFuel
deriving DecidableEq

/-- The new-file buffer: `malloc(newFileSize)` bytes plus a flag recording
whether any store landed outside the allocation. -/
structure Buf where
  data : List Nat
  oob : Bool
deriving DecidableEq

/-- A single byte store `newFileBuf[i] = v`; an index outside
`[0, data.length)` is an out-of-range heap store, recorded in `oob`. -/
def bufWrite (b : Buf) (i : Int) (v : Nat) : Buf :=
  if 0 ≤ i ∧ i < (b.data.length : Int) then { b with data := b.data.set i.toNat v }
  else { b with oob := true }

/-- A single byte load `newFileBuf[i]` (out-of-range reads give 0). -/
def bufGet (b : Buf) (i : Int) : Nat :=
  if 0 ≤ i ∧ i < (b.data.length : Int) then b.data.getD i.toNat 0 else 0

/-- Store a run of bytes at consecutive indices starting at `pos`
(what `BZ2_bzRead` does with the bytes it produces). -/
def writeBytes (b : Buf) (pos : Int) (bytes : List Nat) : Buf :=
  match bytes with
  | [] => b
  | v :: rest => writeBytes (bufWrite b pos v) (pos + 1) rest

/-- The add loop of the diff phase (lines 163-167):
`for (i = 0; i < count; ++i) if (oldPos + i < oldFileSize)
newFileBuf[newPos+i] += oldFileBuf[oldPos+i];` with 8-bit wraparound on
the byte addition and 32-bit `int` arithmetic on the indices.  The loop
is driven structurally by the number `r` of indices still to process,
starting from `r = count, i = 0`: it visits `i = 0, ..., count - 1`
ascending, exactly as the C `for` loop does. -/
def addLoopAux (old : List Nat) (oldPos newPos : Int) : Nat → Nat → Buf → Buf
  | 0, _, b => b
  | r + 1, i, b =>
    let oi := wrap32 (oldPos + i)
    let ni := wrap32 (newPos + i)
    let b1 := if oi < (old.length : Int) then
        bufWrite b ni ((bufGet b ni + old.getD oi.toNat 0) % 256)
      else b
    addLoopAux old oldPos newPos r (i + 1) b1

/-- Entry point of the add loop: process indices `0 ≤ i < count`. -/
def addLoop (old : List Nat) (oldPos newPos : Int) (count : Nat) (b : Buf) : Buf :=
  addLoopAux old oldPos newPos count 0 b

/-- State of the reconstruction loop (lines 138-191). -/
structure LoopSt where
  oldData : List Nat
  newSize : Int
  buf : Buf
  oldPos : Int
  newPos : Int
  ctl : List Nat
  dif : List Nat
  ext : List Nat
  /-- whether `bfpExtra` is a live decompressor (line 107 tests the wrong
  variable, so the loop can be entered with a NULL `bfpExtra`). -/
  extraOk : Bool
deriving DecidableEq

/-- Control fetch (lines 141-149): pull 24 bytes from the control
substream and decode the triplet; fewer than 24 available is a short
read, hence failure. -/
def ctlPhase (st : LoopSt) : Option (Int × Int × Int × LoopSt) :=
  if st.ctl.length < 24 then none
  else some (readOffset (st.ctl.take 8),
             readOffset ((st.ctl.drop 8).take 8),
             readOffset ((st.ctl.drop 16).take 8),
             { st with ctl := st.ctl.drop 24 })

/-- Diff phase (lines 151-171): bounds check, read `c0` bytes from the
diff substream into the buffer at `newPos`, add old-file bytes, advance
both cursors.  `.error` is the unified failure (message "Invalid
patchFile"); its payload is the state reached at the failure point. -/
def diffPhase (c0 : Int) (st : LoopSt) : Except LoopSt LoopSt :=
  if c0 < 0 ∨ wrap32 (st.newPos + c0) > st.newSize then .error st
  else
    let k := min c0.toNat st.dif.length
    let st1 : LoopSt := { st with buf := writeBytes st.buf st.newPos (st.dif.take k),
                                  dif := st.dif.drop k }
    if (k : Int) ≠ c0 then .error st1
    else
      .ok { st1 with buf := addLoop st1.oldData st1.oldPos st1.newPos c0.toNat st1.buf,
                     newPos := wrap32 (st1.newPos + c0),
                     oldPos := wrap32 (st1.oldPos + c0) }

/-- Extra phase (lines 173-182): bounds check, then read `c1` bytes from
the extra substream into the buffer at `newPos`.  A NULL extra handle
fails before storing anything. -/
def extraPhase (c1 : Int) (st : LoopSt) : Except LoopSt LoopSt :=
  if c1 < 0 ∨ wrap32 (st.newPos + c1) > st.newSize then .error st
  else if ¬ st.extraOk then .error st
  else
    let k := min c1.toNat st.ext.length
    let st1 : LoopSt := { st with buf := writeBytes st.buf st.newPos (st.ext.take k),
                                  ext := st.ext.drop k }
    if (k : Int) ≠ c1 then .error st1 else .ok st1

/-- Seek phase (lines 184-190): reject a negative `seekDelta`, then
`newPos += c1; oldPos += c2`.  There is no comparison of `oldPos` with
`oldFileSize` here. -/
def seekPhase (c1 c2 : Int) (st : LoopSt) : Except LoopSt LoopSt :=
  if c2 < 0 then .error st
  else .ok { st with newPos := wrap32 (st.newPos + c1), oldPos := wrap32 (st.oldPos + c2) }

/-- One iteration of the reconstruction loop body. -/
def patchStep (st : LoopSt) : Except LoopSt LoopSt :=
  match ctlPhase st with
  | none => .error st
  | some (c0, c1, c2, st1) => ((diffPhase c0 st1).bind (extraPhase c1)).bind (seekPhase c1 c2)

/-- Outcome of the reconstruction loop. -/
inductive LoopRes where
  | fail (st : LoopSt)
  | done (st : LoopSt)
deriving DecidableEq

/-- The reconstruction loop `while (newPos < newFileSize)`, fuelled; the
loop consumes 24 control bytes per iteration, so any fuel above
`ctl.length` is enough (proved below). -/
def patchLoopF : Nat → LoopSt → Option LoopRes
  | 0, _ => none
  | f + 1, st =>
    if st.newPos < st.newSize then
      match patchStep st with
      | .error s => some (.fail s)
      | .ok s => patchLoopF f s
    else some (.done st)

/-- Externally visible resource events of one `bsdiff_patch` call. -/
inductive Ev where
  | openCtl
  | openDiff
  | openExtra
  | allocOld
  | allocNew
  | createNew
  | writeNew
deriving DecidableEq

/-- Oracle inputs of one `bsdiff_patch` call: success of each external
operation, plus the relevant byte contents. -/
structure World where
  patchOpenOk : Bool
  /-- raw bytes of the patch file (the header is read from here). -/
  patch : List Nat
  ctlOpenOk : Bool
  /-- decompressed control substream. -/
  ctl : List Nat
  diffOpenOk : Bool
  diffBzOk : Bool
  /-- decompressed diff substream. -/
  dif : List Nat
  extraOpenOk : Bool
  extraBzOk : Bool
  /-- decompressed extra substream. -/
  ext : List Nat
  oldOpenOk : Bool
  oldAllocOk : Bool
  oldReadOk : Bool
  /-- old file contents. -/
  old : List Nat
  newAllocOk : Bool
  newOpenOk : Bool
  newWriteOk : Bool

/-- Initial loop state (lines 130-139): fresh buffer of `newFileSize`
bytes, both cursors at 0, all three substreams at their starts. -/
def mkSt0 (w : World) (ns : Int) : LoopSt :=
  ⟨w.old, ns, ⟨List.replicate ns.toNat 0, false⟩, 0, 0, w.ctl, w.dif, w.ext, w.extraBzOk⟩

/-- Result of one `bsdiff_patch` call. -/
inductive PatchResult where
  | ok (newData : List Nat)
  | err (msg : ErrMsg)
deriving DecidableEq

/-- Observable outcome: result, resource events in order, whether any
buffer store was out of range, and the loop state at loop exit. -/
structure RunRes where
  result : PatchResult
  events : List Ev
  oob : Bool
  finalSt : Option LoopSt

/-- Setup (lines 70-135): open the patch, parse the header, open the
three decompressing readers (note line 107 re-tests `bfpDiff` after
opening `bfpExtra`), load the old file, allocate the new buffer.
Returns the header newFileSize plus the resource events so far, or the
failure message plus events. -/
def setupPhase (w : World) : Except (ErrMsg × List Ev) (Int × List Ev) :=
  if ¬ w.patchOpenOk then .error (.cantOpenPatchFile, [])
  else match readHeader w.patch with
  | none => .error (.invalidPatchFile, [])
  | some (_cb, _db, ns) =>
    if ¬ w.ctlOpenOk then .error (.invalidPatchFile, []) else
    let ev1 : List Ev := [.openCtl]
    if ¬ w.diffOpenOk then .error (.invalidPatchFile, ev1) else
    if ¬ w.diffBzOk then .error (.invalidPatchFile, ev1) else
    let ev2 : List Ev := ev1 ++ [.openDiff]
    if ¬ w.extraOpenOk then .error (.invalidPatchFile, ev2) else
    let ev3 : List Ev := ev2 ++ if w.extraBzOk then [.openExtra] else []
    -- line 107: `if (!bfpDiff)` — the wrong handle; `bfpDiff` is non-NULL
    -- here, so this test never fires and a NULL `bfpExtra` slips through.
    if ¬ w.diffBzOk then .error (.invalidPatchFile, ev3) else
    if ¬ w.oldOpenOk then .error (.cantOpenOldFile, ev3) else
    -- `getFileSize` fails (ftell out of `int` range) for oversized files.
    if (w.old.length : Int) > 0x7fffffff then .error (.cantOpenOldFile, ev3) else
    if ¬ w.oldAllocOk then .error (.outOfMemory, ev3) else
    let ev4 : List Ev := ev3 ++ [.allocOld]
    if ¬ w.oldReadOk then .error (.failedToReadOldFile, ev4) else
    if ¬ w.newAllocOk then .error (.outOfMemory, ev4) else
    .ok (ns, ev4 ++ [.allocNew])

/-- Output flush (lines 193-204): create the new file (`fopen "wb"`
truncates or creates it on disk), then write the buffer. -/
def outputPhase (w : World) (ev : List Ev) (s : LoopSt) : RunRes :=
  if ¬ w.newOpenOk then ⟨.err .cantOpenNewFile, ev, s.buf.oob, some s⟩ else
  if ¬ w.newWriteOk then ⟨.err .failedToWriteNewFile, ev ++ [.createNew], s.buf.oob, some s⟩ else
  ⟨.ok s.buf.data, ev ++ [.createNew] ++ [.writeNew], s.buf.oob, some s⟩

/-- `bsdiff_patch` (lines 38-229): setup, reconstruction loop, output
flush.  Every failure returns through the unified exit with the message
shown. -/
def bsdiffRun (w : World) : RunRes :=
  match setupPhase w with
  | .error (m, ev) => ⟨.err m, ev, false, none⟩
  | .ok (ns, ev) =>
    match patchLoopF ((mkSt0 w ns).ctl.length + 1) (mkSt0 w ns) with
    | none => ⟨.err .outOfFuel, ev, false, none⟩
    | some (.fail s) => ⟨.err .invalidPatchFile, ev, s.buf.oob, some s⟩
    | some (.done s) => outputPhase w ev s

/-- `writeError` interior loop (lines 322-327): copy characters of `str`
into `error[0..62]`, stopping at the terminator, then store a final 0.
The result is the list of `(index, value)` stores performed.  The loop
counter `i` starts at 0 with `r = 63` slots remaining (`i < 63` in C);
when `r` hits 0 (so `i = 63`) or a terminator is found, the final 0 is
stored at the current `i`. -/
def writeErrorAux (str : List Nat) : Nat → Nat → List (Nat × Nat)
  | 0, i => [(i, 0)]
  | r + 1, i =>
    if str.getD i 0 = 0 then [(i, 0)]
    else (i, str.getD i 0) :: writeErrorAux str r (i + 1)

/-- `writeError` (lines 317-329): with a NULL buffer nothing is stored;
otherwise the bounded copy runs. -/
def writeError (hasBuf : Bool) (str : List Nat) : List (Nat × Nat) :=
  if hasBuf then writeErrorAux str 63 0 else []

/-- Byte contents of each C error-message literal. -/
def msgBytes : ErrMsg → List Nat
  | .cantOpenPatchFile =>
      [67, 97, 110, 39, 116, 32, 111, 112, 101, 110, 32, 112, 97, 116, 99, 104, 70, 105, 108, 101]
  | .invalidPatchFile =>
      [73, 110, 118, 97, 108, 105, 100, 32, 112, 97, 116, 99, 104, 70, 105, 108, 101]
  | .cantOpenOldFile =>
      [67, 97, 110, 39, 116, 32, 111, 112, 101, 110, 32, 111, 108, 100, 70, 105, 108, 101]
  | .outOfMemory =>
      [79, 117, 116, 32, 111, 102, 32, 109, 101, 109, 111, 114, 121]
  | .failedToReadOldFile =>
      [70, 97, 105, 108, 101, 100, 32, 116, 111, 32, 114, 101, 97, 100, 32, 111, 108, 100, 70,
       105, 108, 101]
  | .cantOpenNewFile =>
      [67, 97, 110, 39, 116, 32, 111, 112, 101, 110, 32, 110, 101, 119, 70, 105, 108, 101]
  | .failedToWriteNewFile =>
      [70, 97, 105, 108, 101, 100, 32, 116, 111, 32, 119, 114, 105, 116, 101, 32, 110, 101, 119,
       70, 105, 108, 101]
  | .outOfFuel => []

/-- A whole call with the caller error buffer (NULL when `hasBuf` is
false): the return status plus the stores into the 64-byte buffer. -/
def patchWithBuf (w : World) (hasBuf : Bool) : Bool × List (Nat × Nat) :=
  match (bsdiffRun w).result with
  | .err m => (false, writeError hasBuf (msgBytes m))
  | .ok _ => (true, [])

/-- Little-endian 8-byte encoding of a value in `[0, 2^31)`; used to
build concrete patch inputs. -/
def encLE (n : Nat) : List Nat :=
  [n % 256, n / 256 % 256, n / 256 ^ 2 % 256, n / 256 ^ 3 % 256, 0, 0, 0, 0]

/-- A concrete 24-byte control triplet. -/
def trip (x y z : Nat) : List Nat := encLE x ++ encLE y ++ encLE z

/-- A fully healthy world with the given patch pieces. -/
def mkWorld (patch ctl dif ext old : List Nat) : World :=
  ⟨true, patch, true, ctl, true, true, dif, true, true, ext, true, true, true, old,
   true, true, true⟩

/-- A 32-byte header with the given sizes. -/
def mkHeader (cbs dbs ns : Nat) : List Nat := magicBytes ++ encLE cbs ++ encLE dbs ++ encLE ns

/-- The spec diff scenario: old `[10,20,30]`, one triplet `(3,0,0)`,
diff bytes `[5,5,5]`. -/
def worldScenario : World := mkWorld (mkHeader 24 3 3) (trip 3 0 0) [5, 5, 5] [] [10, 20, 30]

/-- Hostile patch exercising the 32-bit overflow of
`newPos + ctrl[0] > newFileSize`: `newFileSize = 2`, triplets
`(1,0,0)` then `(0x7fffffff,0,0)`, three diff bytes. -/
def worldOverflow : World :=
  mkWorld (mkHeader 48 3 2) (trip 1 0 0 ++ trip 0x7fffffff 0 0) [7, 9, 11] [] []

/-- Patch seeking far past the end of an empty old file:
`newFileSize = 2`, triplets `(0,1,5)` then `(0,1,0)`, extra `[42,43]`. -/
def worldSeekPastEnd : World :=
  mkWorld (mkHeader 48 0 2) (trip 0 1 5 ++ trip 0 1 0) [] [42, 43] []

/-- World where `BZ2_bzReadOpen` for the extra block fails and
`newFileSize = 0`; everything else succeeds. -/
def worldExtraOpenFail : World :=
  ⟨true, mkHeader 24 0 0, true, [], true, true, [], true, false, [], true, true, true, [],
   true, true, true⟩

/-- Same failed extra open but `newFileSize = 1` with one triplet
`(0,1,0)`, so the loop runs and reaches the dead extra reader. -/
def worldExtraOpenFailLoop : World :=
  ⟨true, mkHeader 24 0 1, true, trip 0 1 0, true, true, [], true, false, [9], true, true, true,
   [], true, true, true⟩

/-- World where everything succeeds except the final `fwrite` of the new
file (`newFileSize = 0`). -/
def worldWriteFail : World :=
  ⟨true, mkHeader 0 0 0, true, [], true, true, [], true, true, [], true, true, true, [],
   true, true, false⟩

/-- The little-endian 32-bit value of bytes 0..3 (the decoded magnitude as
the spec describes it). -/
def le32 (buf : List Nat) : Nat :=
  buf.getD 0 0 + 256 * buf.getD 1 0 + 65536 * buf.getD 2 0 + 16777216 * buf.getD 3 0

/-- Whether a loop-phase outcome is the failure case. -/
def isErr : Except LoopSt LoopSt → Bool
  | .error _ => true
  | .ok _ => false

/-- The reconstructed bytes of a loop state. -/
def bufData (s : LoopSt) : List Nat := s.buf.data

/-- A loop state with `newPos < newSize` but an exhausted control stream. -/
def stShort : LoopSt := ⟨[], 1, ⟨[0], false⟩, 0, 0, [], [], [], true⟩

/-- A loop state whose next triplet `(5,0,0)` overshoots `newSize = 1`. -/
def stOver : LoopSt := ⟨[], 1, ⟨[0], false⟩, 0, 0, trip 5 0 0, [], [], true⟩

/-- A world whose patch file is shorter than the 32-byte header. -/
def worldBadHeader : World := mkWorld [1, 2, 3] [] [] [] []

/-! ## Basic arithmetic and buffer lemmas -/

theorem wrap32_eq_self {x : Int} (h1 : -(2 ^ 31) ≤ x) (h2 : x < 2 ^ 31) : wrap32 x = x := by
  unfold wrap32
  have h0 : 0 ≤ x + 2 ^ 31 := by omega
  have hlt : x + 2 ^ 31 < 2 ^ 32 := by omega
  rw [Int.emod_eq_of_lt h0 hlt]
  omega

theorem bufWrite_length (b : Buf) (i : Int) (v : Nat) :
    (bufWrite b i v).data.length = b.data.length := by
  unfold bufWrite
  split <;> simp

theorem bufWrite_getD_eq (b : Buf) (i : Int) (v : Nat) (h0 : 0 ≤ i)
    (h1 : i < (b.data.length : Int)) :
    (bufWrite b i v).data.getD i.toNat 0 = v := by
  unfold bufWrite
  rw [if_pos ⟨h0, h1⟩]
  have hlt : i.toNat < b.data.length := by omega
  simp [List.getD_eq_getElem?_getD, List.getElem?_set_self, hlt]

theorem bufWrite_getD_ne (b : Buf) (i j : Int) (v : Nat) (hj0 : 0 ≤ j) (hne : i ≠ j) :
    (bufWrite b i v).data.getD j.toNat 0 = b.data.getD j.toNat 0 := by
  unfold bufWrite
  split
  · next h =>
    have hnn : i.toNat ≠ j.toNat := by omega
    simp [List.getD_eq_getElem?_getD, List.getElem?_set_ne, hnn]
  · rfl

theorem writeBytes_length (bytes : List Nat) : ∀ (b : Buf) (pos : Int),
    (writeBytes b pos bytes).data.length = b.data.length := by
  induction bytes with
  | nil => intro b pos; rfl
  | cons v rest ih => intro b pos; rw [writeBytes, ih, bufWrite_length]

theorem writeBytes_getD_lt (bytes : List Nat) : ∀ (b : Buf) (pos j : Int), 0 ≤ j → j < pos →
    (writeBytes b pos bytes).data.getD j.toNat 0 = b.data.getD j.toNat 0 := by
  induction bytes with
  | nil => intro b pos j _ _; rfl
  | cons v rest ih =>
    intro b pos j hj hlt
    rw [writeBytes, ih _ _ _ hj (by omega), bufWrite_getD_ne _ _ _ _ hj (by omega)]

theorem writeBytes_getD_at (bytes : List Nat) : ∀ (b : Buf) (pos : Int) (i : Nat),
    0 ≤ pos → pos + bytes.length ≤ (b.data.length : Int) → i < bytes.length →
    (writeBytes b pos bytes).data.getD (pos + (i : Int)).toNat 0 = bytes.getD i 0 := by
  induction bytes with
  | nil => intro b pos i _ _ h; simp at h
  | cons v rest ih =>
    intro b pos i hpos hlen hi
    rw [writeBytes]
    simp only [List.length_cons] at hlen
    cases i with
    | zero =>
      rw [writeBytes_getD_lt rest _ _ _ (by omega) (by omega)]
      have hband : pos < (b.data.length : Int) := by push_cast at hlen; omega
      simpa using bufWrite_getD_eq b pos v hpos hband
    | succ k =>
      have hidx : pos + ((k + 1 : Nat) : Int) = (pos + 1) + (k : Int) := by push_cast; omega
      rw [hidx, ih (bufWrite b pos v) (pos + 1) k (by omega)
        (by rw [bufWrite_length]; push_cast at hlen ⊢; omega)
        (by simpa using Nat.lt_of_succ_lt_succ (by simpa using hi))]
      simp

theorem addLoopAux_length (old : List Nat) (oldPos newPos : Int) : ∀ (r i : Nat) (b : Buf),
    (addLoopAux old oldPos newPos r i b).data.length = b.data.length := by
  intro r
  induction r with
  | zero => intro i b; rfl
  | succ n ih =>
    intro i b
    rw [addLoopAux, ih]
    split
    · rw [bufWrite_length]
    · rfl

theorem addLoopAux_getD_lo (old : List Nat) (oldPos newPos : Int) : ∀ (r i : Nat) (b : Buf)
    (j : Int), 0 ≤ j → j < newPos + (i : Int) → 0 ≤ newPos →
    newPos + (i : Int) + (r : Int) ≤ 2 ^ 31 →
    (addLoopAux old oldPos newPos r i b).data.getD j.toNat 0 = b.data.getD j.toNat 0 := by
  intro r
  induction r with
  | zero => intro i b j _ _ _ _; rfl
  | succ n ih =>
    intro i b j hj hjlt hnp hub
    rw [addLoopAux]
    have hni : wrap32 (newPos + (i : Int)) = newPos + (i : Int) := by
      apply wrap32_eq_self <;> push_cast at hub ⊢ <;> omega
    rw [ih (i + 1) _ j hj (by push_cast at hjlt ⊢; omega) hnp (by push_cast at hub ⊢; omega)]
    split
    · rw [hni, bufWrite_getD_ne _ _ _ _ hj (by omega)]
    · rfl

theorem addLoopAux_getD (old : List Nat) (oldPos newPos : Int) : ∀ (r i : Nat) (b : Buf)
    (j : Nat), i ≤ j → j < i + r → 0 ≤ newPos → 0 ≤ oldPos →
    newPos + (i : Int) + (r : Int) ≤ (b.data.length : Int) →
    (b.data.length : Int) < 2 ^ 31 →
    oldPos + (i : Int) + (r : Int) ≤ 2 ^ 31 →
    (addLoopAux old oldPos newPos r i b).data.getD (newPos + (j : Int)).toNat 0 =
      if oldPos + (j : Int) < (old.length : Int) then
        (b.data.getD (newPos + (j : Int)).toNat 0 + old.getD (oldPos + (j : Int)).toNat 0) % 256
      else b.data.getD (newPos + (j : Int)).toNat 0 := by
  intro r
  induction r with
  | zero => intro i b j h1 h2 _ _ _ _ _; omega
  | succ n ih =>
    intro i b j hij hjlt hnp hop hlen hlen31 hub
    rw [addLoopAux]
    have hni : wrap32 (newPos + (i : Int)) = newPos + (i : Int) := by
      apply wrap32_eq_self <;> push_cast at hlen ⊢ <;> omega
    have hoi : wrap32 (oldPos + (i : Int)) = oldPos + (i : Int) := by
      apply wrap32_eq_self <;> push_cast at hub ⊢ <;> omega
    rcases Nat.eq_or_lt_of_le hij with heq | hlt
    · -- j = i: the step writes this index; the recursion leaves it alone
      subst heq
      rw [addLoopAux_getD_lo old oldPos newPos n (i + 1) _ (newPos + (i : Int))
        (by omega) (by push_cast; omega) hnp (by push_cast at hub ⊢; omega)]
      rw [hni, hoi]
      split
      · next hcond =>
        have hband : newPos + (i : Int) < (b.data.length : Int) := by push_cast at hlen; omega
        rw [bufWrite_getD_eq _ _ _ (by omega) hband]
        unfold bufGet
        rw [if_pos ⟨by omega, hband⟩]
      · rfl
    · -- i < j: the step writes a lower index; use the IH on the rest
      have hstep : ∀ b1 : Buf, b1.data.length = b.data.length →
          b1.data.getD (newPos + (j : Int)).toNat 0 = b.data.getD (newPos + (j : Int)).toNat 0 →
          (addLoopAux old oldPos newPos n (i + 1) b1).data.getD (newPos + (j : Int)).toNat 0 =
          if oldPos + (j : Int) < (old.length : Int) then
            (b.data.getD (newPos + (j : Int)).toNat 0 +
              old.getD (oldPos + (j : Int)).toNat 0) % 256
          else b.data.getD (newPos + (j : Int)).toNat 0 := by
        intro b1 hb1len hb1get
        rw [ih (i + 1) b1 j hlt (by omega) hnp hop
          (by rw [hb1len]; push_cast at hlen ⊢; omega) (by rw [hb1len]; exact hlen31)
          (by push_cast at hub ⊢; omega), hb1get]
      split
      · next hcond =>
        apply hstep
        · rw [bufWrite_length]
        · rw [hni, bufWrite_getD_ne _ _ _ _ (by omega) (by omega)]
      · exact hstep b rfl rfl

/-! ## Phase and loop lemmas -/

theorem ctlPhase_some {st : LoopSt} {c0 c1 c2 : Int} {st1 : LoopSt}
    (h : ctlPhase st = some (c0, c1, c2, st1)) :
    24 ≤ st.ctl.length ∧ st1 = { st with ctl := st.ctl.drop 24 } ∧
    c0 = readOffset (st.ctl.take 8) ∧ c1 = readOffset ((st.ctl.drop 8).take 8) ∧
    c2 = readOffset ((st.ctl.drop 16).take 8) := by
  unfold ctlPhase at h
  split at h
  · simp at h
  · next hn =>
    simp only [Option.some.injEq, Prod.mk.injEq] at h
    obtain ⟨hc0, hc1, hc2, hst⟩ := h
    exact ⟨by omega, hst.symm, hc0.symm, hc1.symm, hc2.symm⟩

theorem diffPhase_ok {c0 : Int} {st s : LoopSt} (h : diffPhase c0 st = .ok s) :
    0 ≤ c0 ∧ wrap32 (st.newPos + c0) ≤ st.newSize ∧
    s.newPos = wrap32 (st.newPos + c0) ∧ s.newSize = st.newSize ∧ s.ctl = st.ctl ∧
    s.extraOk = st.extraOk ∧ s.buf.data.length = st.buf.data.length := by
  unfold diffPhase at h
  split at h
  · simp at h
  · next hguard =>
    push_neg at hguard
    dsimp only at h
    split at h
    · simp at h
    · injection h with h2
      subst h2
      refine ⟨by omega, hguard.2, rfl, rfl, rfl, rfl, ?_⟩
      show (addLoop _ _ _ _ _).data.length = _
      rw [addLoop, addLoopAux_length]
      show (writeBytes _ _ _).data.length = _
      rw [writeBytes_length]

theorem extraPhase_ok {c1 : Int} {st s : LoopSt} (h : extraPhase c1 st = .ok s) :
    0 ≤ c1 ∧ wrap32 (st.newPos + c1) ≤ st.newSize ∧
    s.newPos = st.newPos ∧ s.oldPos = st.oldPos ∧ s.newSize = st.newSize ∧ s.ctl = st.ctl ∧
    s.buf.data.length = st.buf.data.length := by
  unfold extraPhase at h
  split at h
  · simp at h
  · next hguard =>
    push_neg at hguard
    split at h
    · simp at h
    · dsimp only at h
      split at h
      · simp at h
      · injection h with h2
        subst h2
        refine ⟨by omega, hguard.2, rfl, rfl, rfl, rfl, ?_⟩
        show (writeBytes _ _ _).data.length = _
        rw [writeBytes_length]

theorem seekPhase_ok {c1 c2 : Int} {st s : LoopSt} (h : seekPhase c1 c2 st = .ok s) :
    0 ≤ c2 ∧
    s = { st with newPos := wrap32 (st.newPos + c1), oldPos := wrap32 (st.oldPos + c2) } := by
  unfold seekPhase at h
  split at h
  · simp at h
  · next hn =>
    injection h with h2
    exact ⟨by omega, h2.symm⟩

theorem seekPhase_of_nonneg (c1 c2 : Int) (st : LoopSt) (h : 0 ≤ c2) :
    seekPhase c1 c2 st =
      .ok { st with newPos := wrap32 (st.newPos + c1), oldPos := wrap32 (st.oldPos + c2) } := by
  unfold seekPhase
  rw [if_neg (by omega)]

theorem seekPhase_of_neg (c1 c2 : Int) (st : LoopSt) (h : c2 < 0) :
    seekPhase c1 c2 st = .error st := by
  unfold seekPhase
  rw [if_pos h]

theorem patchStep_ok {st s : LoopSt} (h : patchStep st = .ok s) :
    s.newPos ≤ s.newSize ∧ s.ctl.length + 24 = st.ctl.length ∧
    s.newSize = st.newSize ∧ s.buf.data.length = st.buf.data.length := by
  unfold patchStep at h
  cases hc : ctlPhase st with
  | none => rw [hc] at h; simp at h
  | some t =>
    obtain ⟨c0, c1, c2, st1⟩ := t
    rw [hc] at h
    dsimp only at h
    obtain ⟨hlen24, hst1, -, -, -⟩ := ctlPhase_some hc
    cases hd : diffPhase c0 st1 with
    | error e => rw [hd] at h; simp [Except.bind] at h
    | ok s1 =>
      rw [hd] at h
      simp only [Except.bind] at h
      cases he : extraPhase c1 s1 with
      | error e => rw [he] at h; simp at h
      | ok s2 =>
        rw [he] at h
        obtain ⟨-, -, hd3, hd4, hd5, -, hd7⟩ := diffPhase_ok hd
        obtain ⟨-, he2, he3, -, he5, he6, he7⟩ := extraPhase_ok he
        obtain ⟨-, hs2⟩ := seekPhase_ok h
        subst hs2
        have hctl1 : st1.ctl = st.ctl.drop 24 := by rw [hst1]
        have hsz1 : st1.newSize = st.newSize := by rw [hst1]
        have hbl1 : st1.buf.data.length = st.buf.data.length := by rw [hst1]
        refine ⟨?_, ?_, ?_, ?_⟩
        · show wrap32 (s2.newPos + c1) ≤ s2.newSize
          rw [he3, he5]; exact he2
        · show s2.ctl.length + 24 = st.ctl.length
          rw [he6, hd5, hctl1, List.length_drop]; omega
        · show s2.newSize = st.newSize
          rw [he5, hd4, hsz1]
        · show s2.buf.data.length = st.buf.data.length
          rw [he7, hd7, hbl1]

theorem patchStep_error_of_short (st : LoopSt) (h : st.ctl.length < 24) :
    patchStep st = .error st := by
  unfold patchStep ctlPhase
  rw [if_pos h]

theorem patchLoopF_done {f : Nat} {st s : LoopSt} (hle : st.newPos ≤ st.newSize)
    (h : patchLoopF f st = some (.done s)) :
    s.newPos = s.newSize ∧ s.newSize = st.newSize ∧
    s.buf.data.length = st.buf.data.length := by
  induction f generalizing st with
  | zero => simp [patchLoopF] at h
  | succ n ih =>
    rw [patchLoopF] at h
    split at h
    · next hlt =>
      cases hs : patchStep st with
      | error e => rw [hs] at h; simp at h
      | ok s1 =>
        rw [hs] at h
        obtain ⟨h1, h2, h3, h4⟩ := patchStep_ok hs
        obtain ⟨ha, hb, hc⟩ := ih h1 h
        exact ⟨ha, hb.trans h3, hc.trans h4⟩
    · next hge =>
      simp only [Option.some.injEq, LoopRes.done.injEq] at h
      subst h
      exact ⟨Int.le_antisymm hle (Int.not_lt.mp hge), rfl, rfl⟩

theorem patchLoopF_irrel : ∀ (f g : Nat) (st : LoopSt), st.ctl.length < f →
    st.ctl.length < g → patchLoopF f st = patchLoopF g st := by
  intro f
  induction f with
  | zero => intro g st hf _; omega
  | succ n ih =>
    intro g st hf hg
    cases g with
    | zero => omega
    | succ m =>
      rw [patchLoopF]
      conv_rhs => rw [patchLoopF]
      split
      · cases hs : patchStep st with
        | error e => rfl
        | ok s1 =>
          have h2 := (patchStep_ok hs).2.1
          exact ih m s1 (by omega) (by omega)
      · rfl

theorem patchLoopF_isSome : ∀ (f : Nat) (st : LoopSt), st.ctl.length < f →
    (patchLoopF f st).isSome = true := by
  intro f
  induction f with
  | zero => intro st h; omega
  | succ n ih =>
    intro st h
    rw [patchLoopF]
    split
    · cases hs : patchStep st with
      | error e => rfl
      | ok s1 =>
        have h2 := (patchStep_ok hs).2.1
        exact ih s1 (by omega)
    · rfl

/-! ## Header and run-level lemmas -/

theorem readHeader_some_nonneg {p : List Nat} {c d n : Int}
    (h : readHeader p = some (c, d, n)) : 0 ≤ c ∧ 0 ≤ d ∧ 0 ≤ n := by
  unfold readHeader at h
  split at h
  · simp at h
  · split at h
    · simp at h
    · dsimp only at h
      split at h
      · simp at h
      · next hneg =>
        push_neg at hneg
        simp only [Option.some.injEq, Prod.mk.injEq] at h
        obtain ⟨h1, h2, h3⟩ := h
        subst h1; subst h2; subst h3
        exact ⟨hneg.1, hneg.2.1, hneg.2.2⟩

set_option maxHeartbeats 2000000 in
theorem setupPhase_ok {w : World} {ns : Int} {ev : List Ev}
    (h : setupPhase w = .ok (ns, ev)) :
    (∃ cb db, readHeader w.patch = some (cb, db, ns)) ∧
    Ev.createNew ∉ ev ∧ Ev.writeNew ∉ ev := by
  unfold setupPhase at h
  repeat' split at h
  all_goals try (exfalso; exact Except.noConfusion h)
  all_goals try dsimp only at h
  all_goals simp only [Except.ok.injEq, Prod.mk.injEq] at h
  all_goals obtain ⟨h1, h2⟩ := h
  all_goals subst h1
  all_goals subst h2
  all_goals exact ⟨⟨_, _, by assumption⟩, by simp, by simp⟩

set_option maxHeartbeats 2000000 in
theorem setupPhase_error {w : World} {m : ErrMsg} {ev : List Ev}
    (h : setupPhase w = .error (m, ev)) :
    Ev.createNew ∉ ev ∧ Ev.writeNew ∉ ev := by
  unfold setupPhase at h
  repeat' split at h
  all_goals try (exfalso; exact Except.noConfusion h)
  all_goals try dsimp only at h
  all_goals simp only [Except.error.injEq, Prod.mk.injEq] at h
  all_goals obtain ⟨h1, h2⟩ := h
  all_goals subst h2
  all_goals exact ⟨by simp, by simp⟩

theorem setupPhase_header_none {w : World} (hopen : w.patchOpenOk = true)
    (hh : readHeader w.patch = none) :
    setupPhase w = .error (.invalidPatchFile, []) := by
  unfold setupPhase
  rw [hopen, hh]
  simp

theorem bsdiffRun_ok_char {w : World} {r : RunRes} (hr : bsdiffRun w = r) :
    ∀ out, r.result = .ok out →
    ∃ s : LoopSt, r.finalSt = some s ∧ s.newPos = s.newSize ∧ out = s.buf.data ∧
      (out.length : Int) = s.newSize := by
  unfold bsdiffRun at hr
  split at hr
  · subst hr; intro out hout; exact PatchResult.noConfusion hout
  next ns ev heq =>
    split at hr
    · subst hr; intro out hout; exact PatchResult.noConfusion hout
    · subst hr; intro out hout; exact PatchResult.noConfusion hout
    next s hloop =>
      unfold outputPhase at hr
      split at hr
      · subst hr; intro out hout; exact PatchResult.noConfusion hout
      · split at hr
        · subst hr; intro out hout; exact PatchResult.noConfusion hout
        · subst hr
          intro out hout
          simp only [PatchResult.ok.injEq] at hout
          subst hout
          obtain ⟨⟨cb, db, hhdr⟩, -, -⟩ := setupPhase_ok heq
          obtain ⟨-, -, hns⟩ := readHeader_some_nonneg hhdr
          have h0 : (mkSt0 w ns).newPos ≤ (mkSt0 w ns).newSize := by
            show (0 : Int) ≤ ns; exact hns
          obtain ⟨ha, hb, hc⟩ := patchLoopF_done h0 hloop
          refine ⟨s, rfl, ha, rfl, ?_⟩
          have hlen : s.buf.data.length = ns.toNat := by
            rw [hc]; show (List.replicate ns.toNat 0).length = ns.toNat
            exact List.length_replicate _ _
          rw [hlen, hb]
          show ((ns.toNat : Int)) = ns
          exact Int.toNat_of_nonneg hns



theorem getLast?_cons_ne_nil {α : Type} (a : α) {l : List α} (h : l ≠ []) :
    (a :: l).getLast? = l.getLast? := by
  cases l with
  | nil => exact absurd rfl h
  | cons b t => simp [List.getLast?]

theorem writeErrorAux_ne_nil (str : List Nat) : ∀ (r i : Nat), writeErrorAux str r i ≠ [] := by
  intro r i
  cases r with
  | zero => simp [writeErrorAux]
  | succ n =>
    rw [writeErrorAux]
    split <;> simp

theorem writeErrorAux_mem (str : List Nat) : ∀ (r i : Nat) (p : Nat × Nat),
    p ∈ writeErrorAux str r i → i ≤ p.1 ∧ p.1 ≤ i + r := by
  intro r
  induction r with
  | zero =>
    intro i p hp
    simp only [writeErrorAux, List.mem_singleton] at hp
    subst hp
    omega
  | succ n ih =>
    intro i p hp
    rw [writeErrorAux] at hp
    split at hp
    · simp only [List.mem_singleton] at hp
      subst hp
      omega
    · rcases List.mem_cons.mp hp with rfl | hmem
      · exact ⟨le_rfl, by omega⟩
      · have := ih (i + 1) p hmem
        omega

theorem writeErrorAux_last (str : List Nat) : ∀ (r i : Nat),
    ∃ j, i ≤ j ∧ j ≤ i + r ∧ (writeErrorAux str r i).getLast? = some (j, 0) := by
  intro r
  induction r with
  | zero => intro i; exact ⟨i, le_rfl, by omega, rfl⟩
  | succ n ih =>
    intro i
    rw [writeErrorAux]
    split
    · exact ⟨i, le_rfl, by omega, rfl⟩
    · obtain ⟨j, h1, h2, h3⟩ := ih (i + 1)
      refine ⟨j, by omega, by omega, ?_⟩
      rw [getLast?_cons_ne_nil _ (writeErrorAux_ne_nil str n (i + 1))]
      exact h3

theorem writeErrorAux_length (str : List Nat) : ∀ (r i : Nat),
    (writeErrorAux str r i).length ≤ r + 1 := by
  intro r
  induction r with
  | zero => intro i; simp [writeErrorAux]
  | succ n ih =>
    intro i
    rw [writeErrorAux]
    split
    · simp
    · simpa using Nat.succ_le_succ (ih (i + 1))

theorem bsdiffRun_err_events {w : World} {r : RunRes} (hr : bsdiffRun w = r) {m : ErrMsg}
    (hm : r.result = .err m) (hne : m ≠ .failedToWriteNewFile) :
    Ev.createNew ∉ r.events ∧ Ev.writeNew ∉ r.events := by
  unfold bsdiffRun at hr
  split at hr
  · next m2 ev heq => subst hr; exact setupPhase_error heq
  next ns ev heq =>
    split at hr
    · subst hr; exact (setupPhase_ok heq).2
    · subst hr; exact (setupPhase_ok heq).2
    next s hloop =>
      unfold outputPhase at hr
      split at hr
      · subst hr; exact (setupPhase_ok heq).2
      · split at hr
        · subst hr
          exfalso
          apply hne
          simpa using hm.symm
        · subst hr
          exact absurd hm (by simp)

theorem bsdiffRun_createNew {w : World} {r : RunRes} (hr : bsdiffRun w = r)
    (hmem : Ev.createNew ∈ r.events) :
    r.finalSt.isSome = true ∧ r.finalSt.map LoopSt.newPos = r.finalSt.map LoopSt.newSize := by
  unfold bsdiffRun at hr
  split at hr
  · next m2 ev heq => subst hr; exact absurd hmem (setupPhase_error heq).1
  next ns ev heq =>
    obtain ⟨⟨cb, db, hhdr⟩, hcn, hwn⟩ := setupPhase_ok heq
    split at hr
    · subst hr; exact absurd hmem hcn
    · subst hr; exact absurd hmem hcn
    next s hloop =>
      have hns := (readHeader_some_nonneg hhdr).2.2
      have h0 : (mkSt0 w ns).newPos ≤ (mkSt0 w ns).newSize := by
        show (0 : Int) ≤ ns; exact hns
      obtain ⟨ha, hb, hc⟩ := patchLoopF_done h0 hloop
      unfold outputPhase at hr
      split at hr
      · subst hr; exact absurd hmem hcn
      · split at hr
        · subst hr; exact ⟨rfl, by simp [ha]⟩
        · subst hr; exact ⟨rfl, by simp [ha]⟩


/-! ## Claim theorems -/

/-- C1: the claim says a triplet with `newPos + diffCount > newFileSize`
is rejected with MalformedPatch before any write, the comparison being
exact (no overflow), so every written index lies in `[0, newFileSize)`.
The code computes the comparison in 32-bit `int`: with `newFileSize = 2`,
a first triplet `(1,0,0)` and a hostile second triplet
`(0x7fffffff,0,0)`, the sum `1 + 0x7fffffff` wraps to `-2^31`, the check
passes, and the diff read stores a byte at index `2 = newFileSize`
(outside the allocation) before the short read is detected. -/
theorem c1_bounds_check_overflow :
    readOffset (encLE 0x7fffffff) = 0x7fffffff ∧
    wrap32 (1 + 0x7fffffff) = -(2 ^ 31) ∧
    (bsdiffRun worldOverflow).result = .err .invalidPatchFile ∧
    (bsdiffRun worldOverflow).oob = true := by decide

/-- C2: in the diff phase, output byte `newPos + i` is the diff byte plus
the old byte at `oldPos + i` mod 256 when `oldPos + i < oldFileSize`, and
the raw diff byte otherwise (no error); and the spec scenario
old `[10,20,30]`, triplet `(3,0,0)`, diff `[5,5,5]` yields `[15,25,35]`. -/
theorem c2_diff_phase_bytes :
    (∀ (old diffBytes : List Nat) (b : Buf) (oldPos newPos : Int) (count i : Nat),
      diffBytes.length = count → 0 ≤ newPos → 0 ≤ oldPos →
      newPos + (count : Int) ≤ (b.data.length : Int) → (b.data.length : Int) < 2 ^ 31 →
      oldPos + (count : Int) ≤ 2 ^ 31 → i < count →
      (addLoop old oldPos newPos count (writeBytes b newPos diffBytes)).data.getD
          (newPos + (i : Int)).toNat 0 =
        if oldPos + (i : Int) < (old.length : Int) then
          (diffBytes.getD i 0 + old.getD (oldPos + (i : Int)).toNat 0) % 256
        else diffBytes.getD i 0) ∧
    (bsdiffRun worldScenario).result = .ok [15, 25, 35] := by
  constructor
  · intro old diffBytes b oldPos newPos count i hdl hnp hop hlen hlen31 hub hi
    unfold addLoop
    rw [addLoopAux_getD old oldPos newPos count 0 _ i (Nat.zero_le i) (by omega) hnp hop
      (by rw [writeBytes_length]; push_cast; omega)
      (by rw [writeBytes_length]; exact hlen31)
      (by push_cast; omega)]
    rw [writeBytes_getD_at diffBytes b newPos i hnp (by rw [hdl]; exact hlen)
      (by omega)]
  · decide

/-- C2 witness at the spec scenario, index 1. -/
theorem c2_diff_phase_bytes_witness :
    (addLoop [10, 20, 30] 0 0 3 (writeBytes ⟨[0, 0, 0], false⟩ 0 [5, 5, 5])).data.getD
        ((0 : Int) + ((1 : Nat) : Int)).toNat 0 =
      if (0 : Int) + ((1 : Nat) : Int) < (([10, 20, 30] : List Nat).length : Int) then
        (([5, 5, 5] : List Nat).getD 1 0 +
          ([10, 20, 30] : List Nat).getD ((0 : Int) + ((1 : Nat) : Int)).toNat 0) % 256
      else ([5, 5, 5] : List Nat).getD 1 0 :=
  c2_diff_phase_bytes.1 [10, 20, 30] [5, 5, 5] ⟨[0, 0, 0], false⟩ 0 0 3 1 (by decide)
    (by decide) (by decide) (by decide) (by decide) (by decide) (by decide)

/-- C3 counterexample: with an empty old file the patch
`(0,1,5)`, `(0,1,0)` seeks `oldPos` to 5, far beyond `oldFileSize = 0`,
yet the run succeeds — the claimed `oldPos ≤ oldFileSize` validation does
not exist in the code. -/
theorem c3_seek_no_upper_bound_cex :
    (bsdiffRun worldSeekPastEnd).result = .ok [42, 43] ∧
    (bsdiffRun worldSeekPastEnd).finalSt.map LoopSt.oldPos = some 5 ∧
    worldSeekPastEnd.old.length = 0 := by decide

/-- C3 amended: at the top of every iteration `newPos ≤ newFileSize`; the
seek phase checks only the sign of `seekDelta` — a negative delta fails,
a non-negative one is applied with no upper bound on the resulting
`oldPos` (past-end acts as a sentinel), and `oldPos` stays non-negative
as long as its accumulation stays in `int` range. -/
theorem c3_loop_invariant_amended :
    (∀ st s : LoopSt, patchStep st = .ok s → s.newPos ≤ s.newSize) ∧
    (∀ (c1 c2 : Int) (st : LoopSt), 0 ≤ c2 → seekPhase c1 c2 st =
      .ok { st with newPos := wrap32 (st.newPos + c1), oldPos := wrap32 (st.oldPos + c2) }) ∧
    (∀ (c1 c2 : Int) (st : LoopSt), c2 < 0 → seekPhase c1 c2 st = .error st) ∧
    (∀ (c1 c2 : Int) (st s : LoopSt), seekPhase c1 c2 st = .ok s → 0 ≤ c2 → 0 ≤ st.oldPos →
      st.oldPos + c2 < 2 ^ 31 → 0 ≤ s.oldPos) := by
  refine ⟨?_, seekPhase_of_nonneg, seekPhase_of_neg, ?_⟩
  · intro st s h
    exact (patchStep_ok h).1
  · intro c1 c2 st s h hc2 h1 h2
    obtain ⟨-, rfl⟩ := seekPhase_ok h
    show 0 ≤ wrap32 (st.oldPos + c2)
    rw [wrap32_eq_self (by omega) h2]
    omega

/-- C3 amended witness: one concrete accepted step. -/
theorem c3_loop_invariant_amended_witness :
    (⟨[], 2, ⟨[42, 0], false⟩, 5, 1, trip 0 1 0, [], [43], true⟩ : LoopSt).newPos ≤
      (⟨[], 2, ⟨[42, 0], false⟩, 5, 1, trip 0 1 0, [], [43], true⟩ : LoopSt).newSize :=
  c3_loop_invariant_amended.1 (mkSt0 worldSeekPastEnd 2) _ (by rfl)

/-- C4: the claim says a failed open of any of the three decompressing
readers makes `bsdiff_patch` fail before the loop.  Line 107 re-tests
`bfpDiff` instead of `bfpExtra`, so a failed extra open is undetected:
with `newFileSize = 0` the call even succeeds, and with `newFileSize = 1`
the reconstruction loop is entered with the extra reader missing. -/
theorem c4_extra_open_unchecked :
    worldExtraOpenFail.extraBzOk = false ∧
    (bsdiffRun worldExtraOpenFail).result = .ok [] ∧
    worldExtraOpenFailLoop.extraBzOk = false ∧
    (bsdiffRun worldExtraOpenFailLoop).finalSt.isSome = true ∧
    (bsdiffRun worldExtraOpenFailLoop).result = .err .invalidPatchFile := by decide

/-- C5: `readOffset` returns the invalid marker `-1` exactly when one of
bytes 4..7 is non-zero or the little-endian 32-bit value of bytes 0..3
exceeds `0x7fffffff`; otherwise it returns exactly that value, so no
negative and no value above `0x7fffffff` is ever produced as valid. -/
theorem c5_read_offset_codec : ∀ buf : List Nat, buf.length = 8 → (∀ b ∈ buf, b < 256) →
    (readOffset buf = -1 ↔
      (buf.getD 4 0 ≠ 0 ∨ buf.getD 5 0 ≠ 0 ∨ buf.getD 6 0 ≠ 0 ∨ buf.getD 7 0 ≠ 0 ∨
        0x7fffffff < le32 buf)) ∧
    ((buf.getD 4 0 = 0 ∧ buf.getD 5 0 = 0 ∧ buf.getD 6 0 = 0 ∧ buf.getD 7 0 = 0 ∧
        le32 buf ≤ 0x7fffffff) → readOffset buf = (le32 buf : Int)) ∧
    (readOffset buf = -1 ∨ (0 ≤ readOffset buf ∧ readOffset buf ≤ 0x7fffffff)) := by
  intro buf _hlen _hbytes
  have hacc : ((buf.getD 3 0 * 256 + buf.getD 2 0) * 256 + buf.getD 1 0) * 256 +
      buf.getD 0 0 = le32 buf := by unfold le32; ring
  unfold readOffset
  split
  · next h1 =>
    refine ⟨iff_of_true rfl (by tauto), ?_, Or.inl rfl⟩
    rintro ⟨a4, a5, a6, a7, -⟩
    rcases h1 with h | h | h | h
    · exact absurd a7 h
    · exact absurd a6 h
    · exact absurd a5 h
    · exact absurd a4 h
  · next h1 =>
    push_neg at h1
    dsimp only
    rw [hacc]
    split
    · next h2 =>
      refine ⟨iff_of_true rfl ?_, ?_, Or.inl rfl⟩
      · exact Or.inr (Or.inr (Or.inr (Or.inr h2)))
      · rintro ⟨-, -, -, -, hle⟩
        omega
    · next h2 =>
      push_neg at h2
      refine ⟨iff_of_false (by omega) ?_, fun _ => rfl, Or.inr ⟨by omega, by omega⟩⟩
      push_neg
      exact ⟨h1.2.2.2, h1.2.2.1, h1.2.1, h1.1, by omega⟩

/-- C5 witness at the maximal valid encoding. -/
theorem c5_read_offset_codec_witness :
    readOffset [255, 255, 255, 127, 0, 0, 0, 0] =
      (le32 [255, 255, 255, 127, 0, 0, 0, 0] : Int) :=
  (c5_read_offset_codec [255, 255, 255, 127, 0, 0, 0, 0] (by decide) (by decide)).2.1
    (by decide)

/-- C6: header parsing fails exactly when fewer than 32 bytes are
available, or the magic differs, or one of the three trailing fields
decodes negative; and on a header failure `bsdiff_patch` returns
"Invalid patchFile" with no substream opened and no buffer allocated. -/
theorem c6_header_validation :
    (∀ p : List Nat, readHeader p = none ↔
      (p.length < 32 ∨ p.take 8 ≠ magicBytes ∨ readOffset ((p.drop 8).take 8) < 0 ∨
        readOffset ((p.drop 16).take 8) < 0 ∨ readOffset ((p.drop 24).take 8) < 0)) ∧
    (∀ w : World, w.patchOpenOk = true → readHeader w.patch = none →
      bsdiffRun w = ⟨.err .invalidPatchFile, [], false, none⟩) := by
  constructor
  · intro p
    unfold readHeader
    split
    · next h1 => exact iff_of_true rfl (Or.inl h1)
    · next h1 =>
      split
      · next h2 => exact iff_of_true rfl (Or.inr (Or.inl h2))
      · next h2 =>
        dsimp only
        split
        · next h3 =>
          refine iff_of_true rfl (Or.inr (Or.inr ?_))
          tauto
        · next h3 =>
          push_neg at h3
          refine iff_of_false (by simp) ?_
          push_neg
          exact ⟨by omega, not_not.mp h2, by omega, by omega, by omega⟩
  · intro w hopen hh
    unfold bsdiffRun
    rw [setupPhase_header_none hopen hh]

/-- C6 witness: an undersized patch. -/
theorem c6_header_validation_witness :
    bsdiffRun worldBadHeader = ⟨.err .invalidPatchFile, [], false, none⟩ :=
  c6_header_validation.2 worldBadHeader (by decide) (by decide)

/-- C7: success happens only with the loop ending at exactly
`newPos = newFileSize` and the output of exactly that length; a triplet
that overshoots `newFileSize` fails (proved here for diff counts whose
bound comparison stays in `int` range and physically sized diff streams;
the overflowing case is the C1 defect); an exhausted control stream with
`newPos < newFileSize` fails. -/
theorem c7_exact_completion :
    (∀ (w : World) (out : List Nat), (bsdiffRun w).result = .ok out →
      (bsdiffRun w).finalSt.map LoopSt.newPos = (bsdiffRun w).finalSt.map LoopSt.newSize ∧
      (bsdiffRun w).finalSt.map bufData = some out ∧
      (bsdiffRun w).finalSt.map LoopSt.newSize = some ((out.length : Int))) ∧
    (∀ (st : LoopSt) (c0 c1 c2 : Int) (st1 : LoopSt),
      ctlPhase st = some (c0, c1, c2, st1) → 0 ≤ st.newPos → st.newPos ≤ st.newSize →
      st.newSize < 2 ^ 31 → (st.dif.length : Int) + st.newSize < 2 ^ 31 →
      st.newSize < st.newPos + c0 → isErr (patchStep st) = true) ∧
    (∀ (st : LoopSt) (f : Nat), st.newPos < st.newSize → st.ctl.length < 24 →
      patchLoopF (f + 1) st = some (.fail st)) := by
  refine ⟨?_, ?_, ?_⟩
  · intro w out hout
    obtain ⟨s, hfs, ha, hdata, hlen⟩ := bsdiffRun_ok_char rfl out hout
    rw [hfs]
    refine ⟨by simp [ha], by simp [bufData, hdata], by simp [hlen]⟩
  · intro st c0 c1 c2 st1 hc hnp hle hns31 hdif hover
    obtain ⟨h24, hst1, hc0, -, -⟩ := ctlPhase_some hc
    have hf1 : st1.newPos = st.newPos := by rw [hst1]
    have hf2 : st1.newSize = st.newSize := by rw [hst1]
    have hf3 : st1.dif = st.dif := by rw [hst1]
    have hkey : ∃ e, diffPhase c0 st1 = .error e := by
      by_cases hb : wrap32 (st1.newPos + c0) > st1.newSize
      · exact ⟨st1, by unfold diffPhase; rw [if_pos (Or.inr hb)]⟩
      · push_neg at hb
        rw [hf1, hf2] at hb
        have hc0pos : 0 < c0 := by omega
        have hbig : 2 ^ 31 ≤ st.newPos + c0 := by
          by_contra hlt
          push_neg at hlt
          have hw : wrap32 (st.newPos + c0) = st.newPos + c0 := wrap32_eq_self (by omega) hlt
          rw [hw] at hb
          omega
        have hshort : (st1.dif.length : Int) < c0 := by rw [hf3]; omega
        have hmin : min c0.toNat st1.dif.length = st1.dif.length := by omega
        have herr : diffPhase c0 st1 = .error { st1 with
            buf := writeBytes st1.buf st1.newPos (st1.dif.take (min c0.toNat st1.dif.length)),
            dif := st1.dif.drop (min c0.toNat st1.dif.length) } := by
          unfold diffPhase
          rw [if_neg (by push_neg; refine ⟨by omega, ?_⟩; rw [hf1, hf2]; exact hb)]
          dsimp only
          rw [if_pos (by rw [hmin]; omega)]
        exact ⟨_, herr⟩
    obtain ⟨e, he⟩ := hkey
    unfold patchStep
    rw [hc]
    dsimp only
    rw [he]
    rfl
  · intro st f hlt h24
    rw [patchLoopF, if_pos hlt, patchStep_error_of_short st h24]

/-- C7 witness: scenario success, an overshooting step, an exhausted
control stream. -/
theorem c7_exact_completion_witness :
    ((bsdiffRun worldScenario).finalSt.map LoopSt.newPos =
        (bsdiffRun worldScenario).finalSt.map LoopSt.newSize ∧
      (bsdiffRun worldScenario).finalSt.map bufData = some [15, 25, 35] ∧
      (bsdiffRun worldScenario).finalSt.map LoopSt.newSize =
        some ((([15, 25, 35] : List Nat).length : Int))) ∧
    isErr (patchStep stOver) = true ∧
    patchLoopF 1 stShort = some (.fail stShort) :=
  ⟨c7_exact_completion.1 worldScenario [15, 25, 35] (by decide),
   c7_exact_completion.2.1 stOver 5 0 0 ⟨[], 1, ⟨[0], false⟩, 0, 0, [], [], [], true⟩
     (by decide) (by decide) (by decide) (by decide) (by decide) (by decide),
   c7_exact_completion.2.2 stShort 0 (by decide) (by decide)⟩

/-- C8 counterexample: when the final `fwrite` fails, `bsdiff_patch`
returns failure but the output file has already been created (and
truncated) by `fopen "wb"` — a failed attempt is externally visible. -/
theorem c8_output_created_on_failed_write_cex :
    (bsdiffRun worldWriteFail).result = .err .failedToWriteNewFile ∧
    Ev.createNew ∈ (bsdiffRun worldWriteFail).events := by decide

/-- C8 amended: any failure other than a failed output write leaves no
output file behind, and the output file is created only after the loop
has completed the buffer (`newPos = newFileSize`); only when creating
succeeds and the write itself then fails can a (truncated or partial)
output file remain. -/
theorem c8_no_output_before_completion :
    (∀ (w : World) (m : ErrMsg), (bsdiffRun w).result = .err m →
      m ≠ .failedToWriteNewFile →
      Ev.createNew ∉ (bsdiffRun w).events ∧ Ev.writeNew ∉ (bsdiffRun w).events) ∧
    (∀ w : World, Ev.createNew ∈ (bsdiffRun w).events →
      (bsdiffRun w).finalSt.isSome = true ∧
      (bsdiffRun w).finalSt.map LoopSt.newPos = (bsdiffRun w).finalSt.map LoopSt.newSize) :=
  ⟨fun _ _ hm hne => bsdiffRun_err_events rfl hm hne,
   fun _ hmem => bsdiffRun_createNew rfl hmem⟩

/-- C8 amended witness. -/
theorem c8_no_output_before_completion_witness :
    (Ev.createNew ∉ (bsdiffRun worldBadHeader).events ∧
      Ev.writeNew ∉ (bsdiffRun worldBadHeader).events) ∧
    ((bsdiffRun worldScenario).finalSt.isSome = true ∧
      (bsdiffRun worldScenario).finalSt.map LoopSt.newPos =
        (bsdiffRun worldScenario).finalSt.map LoopSt.newSize) :=
  ⟨c8_no_output_before_completion.1 worldBadHeader .invalidPatchFile (by decide) (by decide),
   c8_no_output_before_completion.2 worldScenario (by decide)⟩

/-- C9: the loop terminates on every input: any fuel beyond the control
stream length gives the same (defined) outcome, every successful
iteration consumes exactly 24 control bytes, and an exhausted control
stream makes the step fail. -/
theorem c9_termination :
    (∀ (f g : Nat) (st : LoopSt), st.ctl.length < f → st.ctl.length < g →
      patchLoopF f st = patchLoopF g st) ∧
    (∀ st : LoopSt, (patchLoopF (st.ctl.length + 1) st).isSome = true) ∧
    (∀ st s : LoopSt, patchStep st = .ok s → s.ctl.length + 24 = st.ctl.length) ∧
    (∀ st : LoopSt, st.ctl.length < 24 → patchStep st = .error st) := by
  refine ⟨patchLoopF_irrel, ?_, ?_, patchStep_error_of_short⟩
  · intro st
    exact patchLoopF_isSome _ st (by omega)
  · intro st s h
    exact (patchStep_ok h).2.1

/-- C9 witness. -/
theorem c9_termination_witness :
    patchLoopF 1 stShort = patchLoopF 5 stShort ∧ patchStep stShort = .error stShort :=
  ⟨c9_termination.1 1 5 stShort (by decide) (by decide),
   c9_termination.2.2.2 stShort (by decide)⟩

/-- C10: with a NULL error buffer `writeError` stores nothing and the
call result is unchanged; with a buffer it stores at most 63 message
characters plus a final 0 terminator, every store landing at an index
below 64 regardless of the message length. -/
theorem c10_write_error_bounds :
    (∀ str : List Nat, writeError false str = []) ∧
    (∀ (w : World) (b : Bool), (patchWithBuf w b).1 = (patchWithBuf w true).1) ∧
    (∀ w : World, (patchWithBuf w false).2 = []) ∧
    (∀ (str : List Nat) (p : Nat × Nat), p ∈ writeError true str → p.1 < 64) ∧
    (∀ str : List Nat, ∃ j, j ≤ 63 ∧ (writeError true str).getLast? = some (j, 0)) ∧
    (∀ str : List Nat, (writeError true str).length ≤ 64) := by
  refine ⟨fun str => rfl, ?_, ?_, ?_, ?_, ?_⟩
  · intro w b
    unfold patchWithBuf
    cases h : (bsdiffRun w).result <;> cases b <;> rfl
  · intro w
    unfold patchWithBuf
    cases h : (bsdiffRun w).result <;> rfl
  · intro str p hp
    have := writeErrorAux_mem str 63 0 p (by simpa [writeError] using hp)
    omega
  · intro str
    obtain ⟨j, h1, h2, h3⟩ := writeErrorAux_last str 63 0
    exact ⟨j, by omega, by simpa [writeError] using h3⟩
  · intro str
    have := writeErrorAux_length str 63 0
    simpa [writeError] using this

/-- C10 witness. -/
theorem c10_write_error_bounds_witness :
    ((0, 65) : Nat × Nat).1 < 64 ∧ (patchWithBuf worldScenario false).2 = [] :=
  ⟨c10_write_error_bounds.2.2.2.1 [65] (0, 65) (by decide),
   c10_write_error_bounds.2.2.1 worldScenario⟩
